import Mathlib

/-!
Verification of the bitmap shifter in `animations.cpp`: two pure transforms
over an 8x8 one-bit-per-pixel bitmap stored as eight byte-sized rows.

Embedding conventions:
* `uint8_t` values are `Nat` together with the invariant `< 256`; the implicit
  narrowing on assignment to a `uint8_t` is an explicit `% 256`.
* C `%` on `int` truncates toward zero, so it is embedded as `Int.tmod`.
* A `Symbol` (the 8-byte buffer) is a function `Fin 8 → Nat`.
-/

namespace SlotMachine

/-- An 8-row bitmap: one `Nat` (byte value) per row. -/
def Symbol : Type := Fin 8 → Nat

instance : DecidableEq Symbol := inferInstanceAs (DecidableEq (Fin 8 → Nat))

/-- Every row fits in a `uint8_t`. -/
def GoodSymbol (s : Symbol) : Prop := ∀ r, s r < 256

instance (s : Symbol) : Decidable (GoodSymbol s) :=
  inferInstanceAs (Decidable (∀ r, s r < 256))

/-- Embeds `shiftSymbolHorizontal` of `animations.cpp`:
`out[r] = (row << shift) | (row >> (8 - shift))` computed in promoted `int`
arithmetic and narrowed to `uint8_t` on assignment (the `% 256`).
The documented precondition is `shift ∈ [0,7]`. -/
def shiftSymbolHorizontal (inp : Symbol) (shift : Nat) : Symbol :=
  fun r => ((inp r <<< shift) ||| (inp r >>> (8 - shift))) % 256

/-- Embeds the normalization line of `shiftSymbolVertical`:
`shift = ((shift % 8) + 8) % 8` with C truncating `%` (`Int.tmod`). -/
def normalizeShift (shift : Int) : Int := (shift.tmod 8 + 8).tmod 8

/-- `Int.tmod _ 8` is bounded below by `-8`. -/
theorem neg_eight_lt_tmod_eight (a : Int) : -8 < a.tmod 8 := by
  cases a with
  | ofNat m =>
      have h : Int.tmod (Int.ofNat m) 8 = Int.ofNat (m % 8) := rfl
      rw [h, Int.ofNat_eq_natCast]
      omega
  | negSucc m =>
      have h : Int.tmod (Int.negSucc m) 8 = -Int.ofNat ((m + 1) % 8) := rfl
      have hlt : (m + 1) % 8 < 8 := Nat.mod_lt _ (by decide)
      rw [h, Int.ofNat_eq_natCast]
      omega

/-- The code's truncating normalization agrees with the mathematical
(Euclidean) remainder `shift % 8`. -/
theorem normalizeShift_eq_emod (s : Int) : normalizeShift s = s % 8 := by
  unfold normalizeShift
  have hlb := neg_eight_lt_tmod_eight s
  have hub := Int.tmod_lt_of_pos s (b := 8) (by decide)
  have h1 : (s.tmod 8 + 8).tmod 8 = (s.tmod 8 + 8) % 8 :=
    Int.tmod_eq_emod (by omega) (by decide)
  have h2 : s.tmod 8 = s - 8 * s.tdiv 8 := Int.tmod_def s 8
  rw [h1]
  omega

theorem normalizeShift_nonneg (s : Int) : 0 ≤ normalizeShift s := by
  rw [normalizeShift_eq_emod]; omega

theorem normalizeShift_lt (s : Int) : normalizeShift s < 8 := by
  rw [normalizeShift_eq_emod]; omega

/-- Embeds the index expression `(r - shift + 8) % 8` of `shiftSymbolVertical`
(`shift` already normalized), computed in `int` and used to subscript the
8-entry input buffer. -/
def vIndex (shift : Int) (r : Fin 8) : Fin 8 :=
  ⟨((((r : Nat) : Int) - normalizeShift shift + 8).tmod 8).toNat, by
    have h := Int.tmod_lt_of_pos (((r : Nat) : Int) - normalizeShift shift + 8)
      (b := 8) (by decide)
    omega⟩

/-- Embeds `shiftSymbolVertical` of `animations.cpp`:
normalize the shift, then `out[r] = in[(r - shift + 8) % 8]`. -/
def shiftSymbolVertical (inp : Symbol) (shift : Int) : Symbol :=
  fun r => inp (vIndex shift r)

/-- Value-level characterization of the vertical index map:
it subtracts the shift modulo 8 (Euclidean remainder). -/
theorem vIndex_val (shift : Int) (r : Fin 8) :
    (((vIndex shift r : Fin 8) : Nat) : Int) = (((r : Nat) : Int) - shift) % 8 := by
  have hn := normalizeShift_eq_emod shift
  have hnn := normalizeShift_nonneg shift
  have hlt := normalizeShift_lt shift
  have hr : (r : Nat) < 8 := r.isLt
  show (((((r : Nat) : Int) - normalizeShift shift + 8).tmod 8).toNat : Int) = _
  rw [Int.tmod_eq_emod (by omega) (by decide)]
  omega

/-- Output rows of the horizontal shift always fit in a byte
(the `% 256` narrowing). -/
theorem shiftSymbolHorizontal_lt (inp : Symbol) (shift : Nat) (r : Fin 8) :
    shiftSymbolHorizontal inp shift r < 256 :=
  Nat.mod_lt _ (by decide)

/-- A byte value has no bits at position 8 or above. -/
theorem testBit_ge_eight {a j : Nat} (ha : a < 256) (hj : 8 ≤ j) :
    a.testBit j = false := by
  apply Nat.testBit_lt_two_pow
  have hpow : (2 : Nat) ^ 8 ≤ 2 ^ j := Nat.pow_le_pow_right (by decide) hj
  have h8 : (2 : Nat) ^ 8 = 256 := by norm_num
  omega

/-- Bit-level behaviour of one row of the horizontal shift: bit `j` of the
rotated row is bit `(j + 8 - s) % 8` of the original row. -/
theorem hrow_testBit {a : Nat} (s j : Nat) (ha : a < 256) (hs : s < 8)
    (hj : j < 8) :
    (((a <<< s) ||| (a >>> (8 - s))) % 256).testBit j
      = a.testBit ((j + 8 - s) % 8) := by
  have h256 : (256 : Nat) = 2 ^ 8 := by norm_num
  rw [h256, Nat.testBit_mod_two_pow, Nat.testBit_or, Nat.testBit_shiftLeft,
    Nat.testBit_shiftRight]
  by_cases hcase : s ≤ j
  · have hfalse : a.testBit (8 - s + j) = false :=
      testBit_ge_eight ha (by omega)
    have hidx : (j + 8 - s) % 8 = j - s := by omega
    simp [hj, hcase, hfalse, hidx]
  · have hidx : (j + 8 - s) % 8 = 8 - s + j := by omega
    simp [hj, hcase, hidx]

/-- Bit-level behaviour of the horizontal shift on good symbols. -/
theorem shiftSymbolHorizontal_testBit (inp : Symbol) (hgood : GoodSymbol inp)
    (shift : Nat) (hs : shift < 8) (r : Fin 8) (j : Nat) (hj : j < 8) :
    (shiftSymbolHorizontal inp shift r).testBit j
      = (inp r).testBit ((j + 8 - shift) % 8) :=
  hrow_testBit shift j (hgood r) hs hj

/-- `shift = 0` leaves a good symbol unchanged: `row >> 8` of a byte is `0`. -/
theorem shiftSymbolHorizontal_zero (inp : Symbol) (hgood : GoodSymbol inp) :
    shiftSymbolHorizontal inp 0 = inp := by
  funext r
  show ((inp r <<< 0) ||| (inp r >>> 8)) % 256 = inp r
  have hzero : inp r >>> 8 = 0 := by
    rw [Nat.shiftRight_eq_div_pow]
    exact Nat.div_eq_of_lt (by have := hgood r; norm_num; omega)
  rw [Nat.shiftLeft_zero, hzero, Nat.or_zero, Nat.mod_eq_of_lt (hgood r)]

/-- A concrete symbol used by the witnesses below. -/
def sampleSymbol : Symbol := fun r => 2 * (r : Nat) + 3

/-- C1: `shiftSymbolVertical` is total over all integer shifts, its effective
shift `((shift mod 8) + 8) mod 8` lies in `[0,7]`, and every output row `r`
equals the input row `(r - effective_shift + 8) mod 8` (mathematical mod). -/
theorem C1_vertical_total_spec (inp : Symbol) (shift : Int) :
    (0 ≤ normalizeShift shift ∧ normalizeShift shift < 8) ∧
    ∀ (r r' : Fin 8),
      ((r' : Nat) : Int) = ((((r : Nat) : Int) - (shift % 8 + 8) % 8 + 8) % 8) →
      shiftSymbolVertical inp shift r = inp r' := by
  refine ⟨⟨normalizeShift_nonneg shift, normalizeShift_lt shift⟩, ?_⟩
  intro r r' h
  have hv := vIndex_val shift r
  have hr' : (r' : Nat) < 8 := r'.isLt
  have hv8 : ((vIndex shift r : Fin 8) : Nat) < 8 := (vIndex shift r).isLt
  exact congrArg inp (Fin.ext (by omega))

/-- Witness for C1 at `shift = -3`: row 0 of the output is input row 3. -/
theorem C1_witness :
    shiftSymbolVertical sampleSymbol (-3) 0 = sampleSymbol 3 :=
  (C1_vertical_total_spec sampleSymbol (-3)).2 0 3 (by decide)

/-- C2: for `shift ∈ [0,7]` the horizontal shift rotates each row's bits
left circularly: the pixel at column `c` moves to column `(c + shift) % 8`,
within the same row. -/
theorem C2_horizontal_bit_rotation (inp : Symbol) (hgood : GoodSymbol inp)
    (shift : Nat) (hs : shift < 8) (r : Fin 8) (c : Nat) (hc : c < 8) :
    (shiftSymbolHorizontal inp shift r).testBit ((c + shift) % 8)
      = (inp r).testBit c := by
  rw [shiftSymbolHorizontal_testBit inp hgood shift hs r ((c + shift) % 8)
    (Nat.mod_lt _ (by decide))]
  congr 1
  omega

/-- Witness for C2: a lit pixel of row 1 at column 0 moves to column 3. -/
theorem C2_witness :
    (shiftSymbolHorizontal sampleSymbol 3 1).testBit ((0 + 3) % 8)
      = (sampleSymbol 1).testBit 0 :=
  C2_horizontal_bit_rotation sampleSymbol (by decide) 3 (by decide) 1 0
    (by decide)

/-- C3: for `shift ∈ [0,7]` the horizontal shift always produces a defined
byte-sized result, and at `shift = 0` (where the complementary right shift
amount is the full byte width 8) the result is exactly the input, because the
promoted right shift by 8 yields 0. -/
theorem C3_horizontal_safety (inp : Symbol) (hgood : GoodSymbol inp) :
    (∀ shift, shift ≤ 7 → ∀ r, shiftSymbolHorizontal inp shift r < 256) ∧
    shiftSymbolHorizontal inp 0 = inp :=
  ⟨fun shift _ r => shiftSymbolHorizontal_lt inp shift r,
   shiftSymbolHorizontal_zero inp hgood⟩

/-- Witness for C3 on a concrete symbol. -/
theorem C3_witness :
    shiftSymbolHorizontal sampleSymbol 5 2 < 256 ∧
    shiftSymbolHorizontal sampleSymbol 0 = sampleSymbol := by
  have h := C3_horizontal_safety sampleSymbol (by decide)
  exact ⟨h.1 5 (by decide) 2, h.2⟩

/-- C4: horizontal round trip: shifting by `shift ∈ [1,7]` and then by
`8 - shift` restores the original symbol, and `shift = 0` is the identity. -/
theorem C4_horizontal_roundtrip (inp : Symbol) (hgood : GoodSymbol inp) :
    (∀ shift, 1 ≤ shift → shift ≤ 7 →
        shiftSymbolHorizontal (shiftSymbolHorizontal inp shift) (8 - shift)
          = inp) ∧
    shiftSymbolHorizontal inp 0 = inp := by
  refine ⟨?_, shiftSymbolHorizontal_zero inp hgood⟩
  intro shift h1 h7
  funext r
  apply Nat.eq_of_testBit_eq
  intro j
  by_cases hj : j < 8
  · have hmid : GoodSymbol (shiftSymbolHorizontal inp shift) :=
      fun r => shiftSymbolHorizontal_lt inp shift r
    rw [shiftSymbolHorizontal_testBit _ hmid (8 - shift) (by omega) r j hj]
    rw [shiftSymbolHorizontal_testBit inp hgood shift (by omega) r _
      (Nat.mod_lt _ (by decide))]
    congr 1
    omega
  · rw [testBit_ge_eight (shiftSymbolHorizontal_lt _ _ r) (by omega),
      testBit_ge_eight (hgood r) (by omega)]

/-- Witness for C4: rotating by 3 then by 5 restores the symbol. -/
theorem C4_witness :
    shiftSymbolHorizontal (shiftSymbolHorizontal sampleSymbol 3) 5
      = sampleSymbol :=
  (C4_horizontal_roundtrip sampleSymbol (by decide)).1 3 (by decide) (by decide)

/-- C5: vertical shifting is a group action of the integers under addition:
shifting by `a` and then by `b` equals shifting by `a + b`. -/
theorem C5_vertical_composition (inp : Symbol) (a b : Int) :
    shiftSymbolVertical (shiftSymbolVertical inp a) b
      = shiftSymbolVertical inp (a + b) := by
  funext r
  show inp (vIndex a (vIndex b r)) = inp (vIndex (a + b) r)
  have h1 := vIndex_val b r
  have h2 := vIndex_val a (vIndex b r)
  have h3 := vIndex_val (a + b) r
  exact congrArg inp (Fin.ext (by omega))

/-- C6: vertical shifting is periodic: a shift `s` acts like `s % 8`
(Euclidean remainder) and like `s + 8 * k` for every integer `k`. -/
theorem C6_vertical_periodicity (inp : Symbol) (s : Int) :
    shiftSymbolVertical inp s = shiftSymbolVertical inp (s % 8) ∧
    ∀ k : Int, shiftSymbolVertical inp s = shiftSymbolVertical inp (s + 8 * k) := by
  constructor
  · funext r
    have h1 := vIndex_val s r
    have h2 := vIndex_val (s % 8) r
    exact congrArg inp (Fin.ext (by omega))
  · intro k
    funext r
    have h1 := vIndex_val s r
    have h2 := vIndex_val (s + 8 * k) r
    exact congrArg inp (Fin.ext (by omega))

/-- C7: vertical identity laws: shifting by `0` and by `8` both return the
original symbol. -/
theorem C7_vertical_identity (inp : Symbol) :
    shiftSymbolVertical inp 0 = inp ∧ shiftSymbolVertical inp 8 = inp := by
  constructor
  · funext r
    have h := vIndex_val 0 r
    have hr : (r : Nat) < 8 := r.isLt
    exact congrArg inp (Fin.ext (by omega))
  · funext r
    have h := vIndex_val 8 r
    have hr : (r : Nat) < 8 := r.isLt
    exact congrArg inp (Fin.ext (by omega))

/-- C10: the horizontal and vertical shifts commute: rotating each row's bits
and permuting the rows are independent transformations. -/
theorem C10_shift_commute (inp : Symbol) (h : Nat) (_hh : h < 8) (v : Int) :
    shiftSymbolHorizontal (shiftSymbolVertical inp v) h
      = shiftSymbolVertical (shiftSymbolHorizontal inp h) v := rfl

/-- Witness for C10 at a concrete horizontal and vertical shift. -/
theorem C10_witness :
    shiftSymbolHorizontal (shiftSymbolVertical sampleSymbol 5) 2
      = shiftSymbolVertical (shiftSymbolHorizontal sampleSymbol 2) 5 :=
  C10_shift_commute sampleSymbol 2 (by decide) 5

/-- Number of lit pixels in one byte-sized row (bits 0 through 7). -/
def popcount8 (a : Nat) : Nat :=
  ∑ j : Fin 8, if a.testBit (j : Nat) then 1 else 0

/-- Total number of lit pixels of a symbol. -/
def totalPopcount (s : Symbol) : Nat := ∑ r : Fin 8, popcount8 (s r)

/-- The column permutation performed by a horizontal rotation, as an
equivalence of `Fin 8`. -/
def rotIdx (s : Nat) : Fin 8 ≃ Fin 8 where
  toFun j := ⟨((j : Nat) + 8 - s % 8) % 8, Nat.mod_lt _ (by decide)⟩
  invFun j := ⟨((j : Nat) + s % 8) % 8, Nat.mod_lt _ (by decide)⟩
  left_inv j := by
    apply Fin.ext
    show (((j : Nat) + 8 - s % 8) % 8 + s % 8) % 8 = (j : Nat)
    have := j.isLt
    omega
  right_inv j := by
    apply Fin.ext
    show (((j : Nat) + s % 8) % 8 + 8 - s % 8) % 8 = (j : Nat)
    have := j.isLt
    omega

/-- A rotated row has the same number of lit pixels as the original row. -/
theorem popcount8_hrow {a : Nat} (s : Nat) (ha : a < 256) (hs : s < 8) :
    popcount8 (((a <<< s) ||| (a >>> (8 - s))) % 256) = popcount8 a := by
  unfold popcount8
  have hstep : ∀ j : Fin 8,
      (if (((a <<< s) ||| (a >>> (8 - s))) % 256).testBit (j : Nat)
        then 1 else 0)
        = (fun i : Fin 8 => if a.testBit (i : Nat) then 1 else 0)
            (rotIdx s j) := by
    intro j
    have hb := hrow_testBit s (j : Nat) ha hs j.isLt
    have hidx : ((rotIdx s j : Fin 8) : Nat) = ((j : Nat) + 8 - s) % 8 := by
      show ((j : Nat) + 8 - s % 8) % 8 = ((j : Nat) + 8 - s) % 8
      rw [Nat.mod_eq_of_lt hs]
    simp only [hb, hidx]
  rw [Finset.sum_congr rfl (fun j _ => hstep j)]
  exact Equiv.sum_comp (rotIdx s)
    (fun i : Fin 8 => if a.testBit (i : Nat) then 1 else 0)

/-- The row permutation performed by a vertical shift, as an equivalence of
`Fin 8`. -/
def vEquiv (shift : Int) : Fin 8 ≃ Fin 8 where
  toFun := vIndex shift
  invFun := vIndex (-shift)
  left_inv r := by
    have h1 := vIndex_val shift r
    have h2 := vIndex_val (-shift) (vIndex shift r)
    have hr : (r : Nat) < 8 := r.isLt
    exact Fin.ext (by omega)
  right_inv r := by
    have h1 := vIndex_val (-shift) r
    have h2 := vIndex_val shift (vIndex (-shift) r)
    have hr : (r : Nat) < 8 := r.isLt
    exact Fin.ext (by omega)

/-- C9: both shifts preserve the total number of lit pixels: the horizontal
shift for any `shift ∈ [0,7]`, the vertical shift for any integer shift. -/
theorem C9_popcount_invariant (inp : Symbol) (hgood : GoodSymbol inp) :
    (∀ shift, shift < 8 →
        totalPopcount (shiftSymbolHorizontal inp shift) = totalPopcount inp) ∧
    (∀ shift : Int,
        totalPopcount (shiftSymbolVertical inp shift) = totalPopcount inp) := by
  constructor
  · intro shift hs
    unfold totalPopcount
    exact Finset.sum_congr rfl (fun r _ => popcount8_hrow shift (hgood r) hs)
  · intro shift
    unfold totalPopcount
    exact Equiv.sum_comp (vEquiv shift) (fun r => popcount8 (inp r))

/-- Witness for C9 at concrete shifts. -/
theorem C9_witness :
    totalPopcount (shiftSymbolHorizontal sampleSymbol 3)
        = totalPopcount sampleSymbol ∧
    totalPopcount (shiftSymbolVertical sampleSymbol (-5))
        = totalPopcount sampleSymbol := by
  have h := C9_popcount_invariant sampleSymbol (by decide)
  exact ⟨h.1 3 (by decide), h.2 (-5)⟩

/-- One iteration `out[r] = f(in, r)` of a row loop over the machine state
`(in-buffer, out-buffer)`: it reads the input buffer and writes only the
output cell `r`. The two buffers are separate state components, reflecting
the contract that they must not alias. -/
def rowStep (f : Symbol → Fin 8 → Nat) (st : Symbol × Symbol) (r : Fin 8) :
    Symbol × Symbol :=
  (st.1, Function.update st.2 r (f st.1 r))

/-- Loop body of `shiftSymbolHorizontal`. -/
def hBody (shift : Nat) (inp : Symbol) (r : Fin 8) : Nat :=
  ((inp r <<< shift) ||| (inp r >>> (8 - shift))) % 256

/-- Loop body of `shiftSymbolVertical` (after the normalization line). -/
def vBody (shift : Int) (inp : Symbol) (r : Fin 8) : Nat :=
  inp (vIndex shift r)

/-- The `for (r = 0; r < 8; r++)` loop over the machine state. -/
def runLoop (f : Symbol → Fin 8 → Nat) (st : Symbol × Symbol) :
    Symbol × Symbol :=
  (List.finRange 8).foldl (rowStep f) st

theorem foldl_rowStep_fst (f : Symbol → Fin 8 → Nat) (l : List (Fin 8))
    (st : Symbol × Symbol) : (l.foldl (rowStep f) st).1 = st.1 := by
  induction l generalizing st with
  | nil => rfl
  | cons a t ih => rw [List.foldl_cons]; exact ih _

theorem foldl_rowStep_snd (f : Symbol → Fin 8 → Nat) (l : List (Fin 8))
    (st : Symbol × Symbol) (r : Fin 8) :
    (l.foldl (rowStep f) st).2 r
      = if r ∈ l then f st.1 r else st.2 r := by
  induction l generalizing st with
  | nil => simp
  | cons a t ih =>
      rw [List.foldl_cons, ih]
      by_cases hrt : r ∈ t
      · simp [hrt, rowStep]
      · by_cases hra : r = a
        · subst hra
          simp [hrt, rowStep, Function.update]
        · simp [hrt, hra, rowStep, Function.update]

/-- The loop never modifies the input buffer. -/
theorem runLoop_fst (f : Symbol → Fin 8 → Nat) (st : Symbol × Symbol) :
    (runLoop f st).1 = st.1 :=
  foldl_rowStep_fst f (List.finRange 8) st

/-- After the loop, the output buffer holds exactly the pure row values. -/
theorem runLoop_snd (f : Symbol → Fin 8 → Nat) (st : Symbol × Symbol) :
    (runLoop f st).2 = fun r => f st.1 r := by
  funext r
  rw [runLoop, foldl_rowStep_snd]
  simp [List.mem_finRange]

/-- C8: both loops leave the input buffer unchanged, and their only effect is
writing the 8 cells of the non-aliased output buffer with the pure transform
results; no other component of the machine state is read or modified. -/
theorem C8_frame_condition (inp outp : Symbol) (shift : Nat) (_hs : shift ≤ 7)
    (v : Int) :
    (runLoop (hBody shift) (inp, outp)).1 = inp ∧
    (runLoop (hBody shift) (inp, outp)).2 = shiftSymbolHorizontal inp shift ∧
    (runLoop (vBody v) (inp, outp)).1 = inp ∧
    (runLoop (vBody v) (inp, outp)).2 = shiftSymbolVertical inp v :=
  ⟨runLoop_fst _ _, runLoop_snd _ _, runLoop_fst _ _, runLoop_snd _ _⟩

/-- Witness for C8 on concrete buffers and shifts. -/
theorem C8_witness :
    (runLoop (hBody 1) (sampleSymbol, sampleSymbol)).1 = sampleSymbol ∧
    (runLoop (hBody 1) (sampleSymbol, sampleSymbol)).2
      = shiftSymbolHorizontal sampleSymbol 1 ∧
    (runLoop (vBody 2) (sampleSymbol, sampleSymbol)).1 = sampleSymbol ∧
    (runLoop (vBody 2) (sampleSymbol, sampleSymbol)).2
      = shiftSymbolVertical sampleSymbol 2 :=
  C8_frame_condition sampleSymbol sampleSymbol 1 (by decide) 2

-- Sanity checks on concrete data (spec's concrete scenarios).
example : shiftSymbolHorizontal (fun r => if r = 0 then 1 else 0) 1 =
    (fun r => if r = 0 then 2 else 0) := by decide
example : shiftSymbolHorizontal (fun r => if r = 0 then 1 else 0) 7 =
    (fun r => if r = 0 then 128 else 0) := by decide
example : shiftSymbolVertical (fun r => if r = 0 then 255 else 0) 1 =
    (fun r => if r = 1 then 255 else 0) := by decide
example : shiftSymbolVertical (fun r => if r = 0 then 255 else 0) (-1) =
    (fun r => if r = 7 then 255 else 0) := by decide

end SlotMachine
